import Mathlib

/-!
Verification of the substrate storage layer (PinataStrategy backend adapter and
the Substrate facade) against its specification.

The development shallowly embeds the JavaScript source:
pure helpers become Lean functions, the stateful pinning backend becomes
explicit state passing over a record store, fallible operations return
Except values, and JS runtime failures (such as reading a property of
undefined) are explicit error constructors.
-/

/-- A JSON-like JavaScript value, the payload universe of the storage layer. -/
inductive JVal where
  | null : JVal
  | bool : Bool → JVal
  | num : Int → JVal
  | str : String → JVal
  | obj : List (String × JVal) → JVal

/-- JavaScript truthiness of a value. -/
def JVal.truthy : JVal → Bool
  | .null => false
  | .bool b => b
  | .num n => n != 0
  | .str s => s != ""
  | .obj _ => true

/-- Field access on a JS object represented as an ordered association list
(JS objects never hold duplicate keys; first occurrence wins here). -/
def getKey (m : List (String × JVal)) (k : String) : Option JVal :=
  match m with
  | [] => none
  | p :: t => if p.1 == k then some p.2 else getKey t k

/-- JS property assignment: replace the value at an existing key in place,
otherwise append the key at the end (JS insertion-order semantics). -/
def oset (m : List (String × JVal)) (k : String) (v : JVal) : List (String × JVal) :=
  match m with
  | [] => [(k, v)]
  | p :: t => if p.1 == k then (k, v) :: t else p :: oset t k v

/-- JS object spread: fields of b laid over fields of a. -/
def jsMerge (a b : List (String × JVal)) : List (String × JVal) :=
  b.foldl (fun acc p => oset acc p.1 p.2) a

/-- lodash isPlainObject, as used by addItemData to validate the data body. -/
def isPlainObject : JVal → Bool
  | .obj _ => true
  | _ => false

/-- A metadata query predicate: a value together with a comparison operator,
the normalized form every filterable field takes (spec 4.1). -/
structure QPred where
  value : JVal
  op : String

/-- Lookup in an ordered predicate map. -/
def lookupPred (m : List (String × QPred)) (k : String) : Option QPred :=
  match m with
  | [] => none
  | p :: t => if p.1 == k then some p.2 else lookupPred t k

/-- Assignment into an ordered predicate map (JS object semantics). -/
def osetPred (m : List (String × QPred)) (k : String) (v : QPred) : List (String × QPred) :=
  match m with
  | [] => [(k, v)]
  | p :: t => if p.1 == k then (k, v) :: t else p :: osetPred t k v

/-- Equality of metadata values at the pinning-service boundary.  Pinata
metadata keyvalues are scalar (string/number/date), so equality compares
scalars and no object-valued comparison ever matches. -/
def scalarEq : JVal → JVal → Bool
  | .str a, .str b => a == b
  | .num a, .num b => a == b
  | .bool a, .bool b => a == b
  | .null, .null => true
  | _, _ => false

/-- Regular-expression matching at the backend boundary.  The layer only ever
issues caret-anchored prefix patterns (pattern = caret, prefix), so the model
interprets exactly those. -/
def regexpMatch (pattern s : String) : Bool :=
  if pattern.startsWith "^" then (pattern.drop 1).isPrefixOf s else false

/-- Match one predicate against the metadata value stored under a key. -/
def predMatch (meta : List (String × JVal)) (k : String) (p : QPred) : Bool :=
  match getKey meta k with
  | none => false
  | some v =>
    if p.op == "eq" then scalarEq v p.value
    else if p.op == "regexp" then
      match v, p.value with
      | .str s, .str pat => regexpMatch pat s
      | _, _ => false
    else false

/-- Arguments of a pinList query (the backend list/query operation). -/
structure PinListArgs where
  hashContains : Option String := none
  keyvalues : List (String × QPred)
  pageLimit : Option Int := none
  pageOffset : Option Int := none

/-- Metadata attached to a pinned record. -/
structure PinMetadata where
  name : String
  keyvalues : List (String × JVal)

/-- A pinned record in the backend store: content hash, metadata, body. -/
structure PinRecord where
  ipfs_pin_hash : String
  metadata : PinMetadata
  content : JVal

/-- One backend/network call, recorded in an observable trace. -/
inductive Call where
  | pinList : Call
  | pinJSON : Call
  | unpinCall : String → Call
  | fetchGateway : String → Call
deriving DecidableEq

/-- The backend state: the live (pinned) records, a counter from which the
backend assigns fresh content hashes, and the trace of network calls made. -/
structure PinataState where
  records : List PinRecord
  nextHash : Nat
  trace : List Call

/-- Content hashes assigned by the backend.  The spec declares them opaque and
globally unique; the model realizes them as an injective enumeration. -/
def hashOf (n : Nat) : String :=
  String.mk (List.replicate (n + 1) 'Q')

/-- Append a call to the trace. -/
def addTrace (st : PinataState) (c : Call) : PinataState :=
  { st with trace := st.trace ++ [c] }

/-- Whether a record matches a pinList query.  hashContains is a full
content-hash filter at this boundary (the layer only ever passes complete
hashes, which are never substrings of one another). -/
def matchesArgs (r : PinRecord) (a : PinListArgs) : Bool :=
  (match a.hashContains with
   | none => true
   | some h => r.ipfs_pin_hash == h)
  && a.keyvalues.all (fun kp => predMatch r.metadata.keyvalues kp.1 kp.2)

/-- Pagination of query results (applied only when the caller sends limits). -/
def pageSlice (rows : List PinRecord) (a : PinListArgs) : List PinRecord :=
  match a.pageOffset, a.pageLimit with
  | some off, some lim => (rows.drop off.toNat).take lim.toNat
  | _, _ => rows

/-- Backend list/query call. -/
def pinList (a : PinListArgs) (st : PinataState) : List PinRecord × PinataState :=
  (pageSlice (st.records.filter (fun r => matchesArgs r a)) a, addTrace st .pinList)

/-- Backend pin/create call: stores the body under a fresh content hash. -/
def pinJSONToIPFS (content : JVal) (meta : PinMetadata) (st : PinataState) :
    String × PinataState :=
  let h := hashOf st.nextHash
  (h, { records := st.records ++ [{ ipfs_pin_hash := h, metadata := meta, content := content }],
        nextHash := st.nextHash + 1,
        trace := st.trace ++ [.pinJSON] })

/-- Backend unpin/delete call: removes the record with the given hash. -/
def unpin (h : String) (st : PinataState) : PinataState :=
  { st with records := st.records.filter (fun r => r.ipfs_pin_hash != h),
            trace := st.trace ++ [.unpinCall h] }

/-- Gateway resolution of a content hash (privateResolve followed by json
parsing): returns the stored body of the pinned record with that hash. -/
def resolveContent (st : PinataState) (h : String) : Option JVal :=
  (st.records.find? (fun r => r.ipfs_pin_hash == h)).map (fun r => r.content)

/-- The configuration a strategy instance holds (substrate.client, the tenant
identifier). -/
structure Ctx where
  client : String

/-- Errors the layer can raise.  typeErrorUndefined stands for the JS
TypeError raised when reading a property of undefined. -/
inductive SubErr where
  | itemHashRequired : SubErr
  | itemNotFound : SubErr
  | dataMustBeObject : SubErr
  | typeErrorUndefined : SubErr
  | typeRequired : SubErr
  | typeInvalid : SubErr
  | fetchFailed : SubErr
deriving DecidableEq

/-- Query arguments built by PinataStrategy.getItem: hashContains plus an
equality predicate on sub_client, and, when a type is given, a caret-anchored
regexp predicate on sub_item. -/
def getItemArgs (ctx : Ctx) (itemHash : String) (type : Option String) : PinListArgs :=
  let kv : List (String × QPred) := [("sub_client", { value := .str ctx.client, op := "eq" })]
  let kv : List (String × QPred) :=
    match type with
    | some t => kv ++ [("sub_item", { value := .str ("^" ++ t ++ ":"), op := "regexp" })]
    | none => kv
  { hashContains := some itemHash, keyvalues := kv }

/-- PinataStrategy.parseItem: keeps the metadata keyvalues plus sub_hash when
the record carries a truthy sub_item field, otherwise yields undefined. -/
def parseItem (r : PinRecord) : Option (List (String × JVal)) :=
  match getKey r.metadata.keyvalues "sub_item" with
  | some v =>
      if v.truthy then some (oset r.metadata.keyvalues "sub_hash" (.str r.ipfs_pin_hash))
      else none
  | none => none

/-- Result of getItem: a parsed domain object or the raw backend record,
depending on the resolve flag. -/
inductive ItemResult where
  | parsed : List (String × JVal) → ItemResult
  | raw : PinRecord → ItemResult

/-- PinataStrategy.getItem. -/
def getItem (ctx : Ctx) (itemHash : String) (type : Option String) (resolve : Bool)
    (st : PinataState) : Except SubErr (Option ItemResult) × PinataState :=
  if itemHash == "" then (.error .itemHashRequired, st)
  else
    match pinList (getItemArgs ctx itemHash type) st with
    | (rows, st) =>
      match rows with
      | [] => (.ok none, st)
      | r :: _ =>
        if resolve then (.ok ((parseItem r).map .parsed), st)
        else (.ok (some (.raw r)), st)

/-- Query arguments built by PinataStrategy.getItemData: equality predicates
on sub_client and on the composite sub_id key itemHash/type. -/
def getItemDataArgs (ctx : Ctx) (itemHash type : String) : PinListArgs :=
  { keyvalues := [("sub_client", { value := .str ctx.client, op := "eq" }),
                  ("sub_id", { value := .str (itemHash ++ "/" ++ type), op := "eq" })] }

/-- JS object spread of an arbitrary value: an object contributes its fields,
a primitive contributes no string-keyed fields. -/
def jsSpread : JVal → List (String × JVal)
  | .obj fs => fs
  | _ => []

/-- PinataStrategy.parseItemData: dereference the content hash through the
private gateway and return the parsed body together with sub_hash. -/
def parseItemData (r : PinRecord) (st : PinataState) :
    Except SubErr (List (String × JVal)) × PinataState :=
  let st := addTrace st (.fetchGateway r.ipfs_pin_hash)
  match resolveContent st r.ipfs_pin_hash with
  | none => (.error .fetchFailed, st)
  | some v => (.ok (oset (jsSpread v) "sub_hash" (.str r.ipfs_pin_hash)), st)

/-- Result of getItemData: parsed body or raw backend record. -/
inductive DataResult where
  | parsed : List (String × JVal) → DataResult
  | raw : PinRecord → DataResult

/-- PinataStrategy.getItemData.  When no row matches, the source falls off the
end of the function and returns undefined, modelled as none. -/
def getItemData (ctx : Ctx) (itemHash type : String) (resolve : Bool)
    (st : PinataState) : Except SubErr (Option DataResult) × PinataState :=
  match pinList (getItemDataArgs ctx itemHash type) st with
  | (rows, st) =>
    match rows with
    | [] => (.ok none, st)
    | r :: _ =>
      if resolve then
        match parseItemData r st with
        | (.ok kv, st) => (.ok (some (.parsed kv)), st)
        | (.error e, st) => (.error e, st)
      else (.ok (some (.raw r)), st)

/-- PinataStrategy.removeItemData: unpins the record found for the key when it
has a truthy ipfs_pin_hash, reporting whether something was removed. -/
def removeItemData (ctx : Ctx) (itemHash type : String) (st : PinataState) :
    Except SubErr Bool × PinataState :=
  match getItemData ctx itemHash type false st with
  | (.error e, st) => (.error e, st)
  | (.ok itemData, st) =>
    match itemData with
    | some (.raw r) =>
        if r.ipfs_pin_hash != "" then (.ok true, unpin r.ipfs_pin_hash st)
        else (.ok false, st)
    | _ => (.ok false, st)

/-- The linkage fields stamped on every data record (sub object in
addItemData). -/
def subFields (ctx : Ctx) (sub_id : String) (time : Int) : List (String × JVal) :=
  [("sub_id", .str sub_id), ("sub_date", .num time), ("sub_client", .str ctx.client)]

/-- The metadata keyvalues addItemData attaches: caller keyvalues overlaid
with the linkage fields, plus the optional search tag when truthy. -/
def addMetaKv (ctx : Ctx) (sub_id : String) (time : Int)
    (keyvalues : List (String × JVal)) (search : Option String) :
    List (String × JVal) :=
  let kv := jsMerge keyvalues (subFields ctx sub_id time)
  match search with
  | some s => if s != "" then oset kv "search" (.str s) else kv
  | none => kv

/-- PinataStrategy.addItemData.  time stands for the Date.now timestamp taken
at the start of the call. -/
def addItemData (ctx : Ctx) (itemHash type : String) (data : JVal) (keep : Bool)
    (keyvalues : List (String × JVal)) (search : Option String) (time : Int)
    (st : PinataState) : Except SubErr String × PinataState :=
  match getItem ctx itemHash none true st with
  | (.error e, st) => (.error e, st)
  | (.ok item, st) =>
    match item with
    | none => (.error .itemNotFound, st)
    | some _ =>
      let sub_id := itemHash ++ "/" ++ type
      let sub := subFields ctx sub_id time
      let kv := addMetaKv ctx sub_id time keyvalues search
      let meta : PinMetadata := { name := sub_id, keyvalues := kv }
      let step : Except SubErr Unit × PinataState :=
        if !keep then
          match removeItemData ctx itemHash type st with
          | (.error e, st) => (.error e, st)
          | (.ok _, st) => (.ok (), st)
        else (.ok (), st)
      match step with
      | (.error e, st) => (.error e, st)
      | (.ok _, st) =>
        match data with
        | .obj fs =>
          match pinJSONToIPFS (.obj (jsMerge fs sub)) meta st with
          | (h, st) => (.ok h, st)
        | _ => (.error .dataMustBeObject, st)

/-- The sub_owner metadata value: the owner string or the JS null default. -/
def ownerVal : Option String → JVal
  | some o => .str o
  | none => .null

/-- PinataStrategy.createItem.  uid stands for the externally generated secure
unique identifier (substrate.generateSecureUniqueId) and time for the
Date.now timestamp. -/
def createItem (ctx : Ctx) (type : String) (owner : Option String) (uid : String)
    (time : Int) (st : PinataState) : Except SubErr String × PinataState :=
  let sub_item := type ++ ":" ++ uid
  let sub : List (String × JVal) :=
    [("sub_item", .str sub_item), ("sub_date", .num time), ("sub_client", .str ctx.client)]
  let meta : PinMetadata :=
    { name := sub_item,
      keyvalues := ("sub_owner", ownerVal owner) :: sub }
  match pinJSONToIPFS (.obj sub) meta st with
  | (h, st) => (.ok h, st)

/-- PinataStrategy.removeItem.  The cascade over the listed data types is a
Promise.all fan-out of independent removals, modelled as a left fold; the
dataTypes argument is null (none) when omitted. -/
def removeItem (ctx : Ctx) (itemHash : String) (dataTypes : Option (List String))
    (st : PinataState) : Except SubErr Unit × PinataState :=
  match getItem ctx itemHash none true st with
  | (.error e, st) => (.error e, st)
  | (.ok none, st) => (.error .itemNotFound, st)
  | (.ok (some _), st) =>
    let st := unpin itemHash st
    match dataTypes with
    | none => (.ok (), st)
    | some types =>
      types.foldl
        (fun acc t =>
          match acc with
          | (.error e, s) => (.error e, s)
          | (.ok _, s) =>
            match removeItemData ctx itemHash t s with
            | (.error e, s) => (.error e, s)
            | (.ok _, s) => (.ok (), s))
        ((.ok (), st) : Except SubErr Unit × PinataState)

/-- Normalization of one caller-supplied keyvalue into pinata predicate form
(the loop at the top of PinataStrategy.getItems).  An object with a truthy
value field keeps its value and its op (defaulting to eq when the op field is
falsy); anything else becomes an equality predicate on the whole value.  A
truthy non-string op is passed through by the source as-is and can never
match; the model writes it as the unmatched operator string below. -/
def toQPred (v : JVal) : QPred :=
  match v with
  | .obj fs =>
    match getKey fs "value" with
    | some w =>
      if w.truthy then
        { value := w,
          op :=
            match getKey fs "op" with
            | some (.str o) => if o != "" then o else "eq"
            | some u => if u.truthy then "nonstring-op" else "eq"
            | none => "eq" }
      else { value := v, op := "eq" }
    | none => { value := v, op := "eq" }
  | _ => { value := v, op := "eq" }

/-- Query arguments built by PinataStrategy.getItems: normalized caller
keyvalues overridden by the layer predicates on sub_client and sub_item, plus
an optional owner predicate; page and limit are clamped first.  When type is
omitted the source interpolates the JS null into the pattern string. -/
def getItemsArgs (ctx : Ctx) (type : Option String) (page limit : Int)
    (keyvalues : List (String × JVal)) (owner : Option String) : PinListArgs :=
  let page := if page < 1 then 1 else page
  let limit := if limit < 1 then 10 else limit
  let norm : List (String × QPred) := keyvalues.map (fun p => (p.1, toQPred p.2))
  let kvs := osetPred norm "sub_client" { value := .str ctx.client, op := "eq" }
  let kvs := osetPred kvs "sub_item"
    { value := .str ("^" ++ (match type with | some t => t | none => "null") ++ ":"),
      op := "regexp" }
  let kvs :=
    match owner with
    | some o => osetPred kvs "sub_owner" { value := .str o, op := "eq" }
    | none => kvs
  { keyvalues := kvs, pageLimit := some limit, pageOffset := some ((page - 1) * limit) }

/-- PinataStrategy.getItems. -/
def getItems (ctx : Ctx) (type : Option String) (page limit : Int)
    (keyvalues : List (String × JVal)) (owner : Option String) (st : PinataState) :
    Except SubErr (List (Option (List (String × JVal)))) × PinataState :=
  match pinList (getItemsArgs ctx type page limit keyvalues owner) st with
  | (rows, st) =>
    if rows.length < 1 then (.ok [], st)
    else (.ok (rows.map parseItem), st)

/-- The fan-out phase of PinataStrategy.indexItem: one non-resolving
getItemData per requested type, accumulating dataType to contentHash entries.
The source reads data.ipfs_pin_hash without guarding against getItemData
returning undefined, so a type with no live record raises a TypeError.  The
lookups are read-only and concurrent in the source; the model runs them in
list order (the accumulated object may differ only in field order). -/
def indexLookups (ctx : Ctx) (itemHash : String) (dataTypes : List String)
    (st : PinataState) : Except SubErr (List (String × JVal)) × PinataState :=
  dataTypes.foldl
    (fun acc type =>
      match acc with
      | (.error e, s) => (.error e, s)
      | (.ok index, s) =>
        match getItemData ctx itemHash type false s with
        | (.error e, s) => (.error e, s)
        | (.ok none, s) => (.error .typeErrorUndefined, s)
        | (.ok (some (.raw r)), s) =>
          if r.ipfs_pin_hash != "" then (.ok (oset index type (.str r.ipfs_pin_hash)), s)
          else (.ok index, s)
        | (.ok (some (.parsed _)), s) => (.ok index, s))
    ((.ok [], st) : Except SubErr (List (String × JVal)) × PinataState)

/-- PinataStrategy.indexItem.  After writing the index as a data record of
type index, the source reads it back by calling getItemData with the itemHash
argument set to the IpfsHash of the freshly pinned index record (not the
original item hash), with resolve defaulted to true. -/
def indexItem (ctx : Ctx) (itemHash : String) (dataTypes : List String)
    (search : Option String) (time : Int) (st : PinataState) :
    Except SubErr (Option DataResult) × PinataState :=
  match indexLookups ctx itemHash dataTypes st with
  | (.error e, st) => (.error e, st)
  | (.ok index, st) =>
    match addItemData ctx itemHash "index" (.obj index) false [] search time st with
    | (.error e, st) => (.error e, st)
    | (.ok newHash, st) => getItemData ctx newHash "index" true st

/-- JS String.prototype.toLowerCase on the ASCII alphabet parseType admits. -/
def strToLower (s : String) : String :=
  String.mk (s.data.map Char.toLower)

/-- Substrate.parseType (facade): requires a nonempty string over
[a-zA-Z0-9_], lowercasing the result.  Defined in the facade but not invoked
by createItem. -/
def parseType (type : String) : Except SubErr String :=
  if type == "" then .error .typeRequired
  else if type.data.all (fun c => c.isAlphanum || c == '_') then .ok (strToLower type)
  else .error .typeInvalid

/-- The live data records a tenant has for the key (itemHash, type): exactly
the records the getItemData query matches. -/
def liveRecords (ctx : Ctx) (itemHash type : String) (l : List PinRecord) :
    List PinRecord :=
  l.filter (fun r => matchesArgs r (getItemDataArgs ctx itemHash type))

/-- Number of live data records for a key. -/
def countLive (ctx : Ctx) (itemHash type : String) (st : PinataState) : Nat :=
  (liveRecords ctx itemHash type st.records).length

/-- The records the getItem root query matches for an item hash. -/
def rootRecords (ctx : Ctx) (itemHash : String) (l : List PinRecord) :
    List PinRecord :=
  l.filter (fun r => matchesArgs r (getItemArgs ctx itemHash none))

/-- Whether getItem (resolving, untyped) would find and parse the item. -/
def itemFound (ctx : Ctx) (itemHash : String) (l : List PinRecord) : Bool :=
  (itemHash != "") &&
    match rootRecords ctx itemHash l with
    | [] => false
    | r :: _ => (parseItem r).isSome

/-- Backend well-formedness: every live record carries a hash the backend
assigned earlier, and no two live records share a content hash. -/
def WFState (st : PinataState) : Prop :=
  (∀ r ∈ st.records, ∃ k, k < st.nextHash ∧ r.ipfs_pin_hash = hashOf k) ∧
    (st.records.map (fun r => r.ipfs_pin_hash)).Nodup

/-- A concrete tenant configuration used by the concrete-input theorems. -/
def ctxA : Ctx := { client := "acme" }

/-- A concrete item root record as createItem pins it (hash 0). -/
def rootRec : PinRecord :=
  { ipfs_pin_hash := hashOf 0,
    metadata :=
      { name := "generic:u1",
        keyvalues := [("sub_owner", .null), ("sub_item", .str "generic:u1"),
                      ("sub_date", .num 5), ("sub_client", .str "acme")] },
    content := .obj [("sub_item", .str "generic:u1"), ("sub_date", .num 5),
                     ("sub_client", .str "acme")] }

/-- A concrete data record of type a attached to the item (hash 1). -/
def dataRecA : PinRecord :=
  { ipfs_pin_hash := hashOf 1,
    metadata :=
      { name := hashOf 0 ++ "/a",
        keyvalues := [("sub_id", .str (hashOf 0 ++ "/a")), ("sub_date", .num 6),
                      ("sub_client", .str "acme")] },
    content := .obj [("v", .str "payload"), ("sub_id", .str (hashOf 0 ++ "/a")),
                     ("sub_date", .num 6), ("sub_client", .str "acme")] }

/-- A concrete backend state holding the item and one data record of type a,
with an empty call trace. -/
def exSt : PinataState :=
  { records := [rootRec, dataRecA], nextHash := 2, trace := [] }

/-! Basic lemmas about JS object access and predicate maps. -/

theorem getKey_oset_self (m : List (String × JVal)) (k : String) (v : JVal) :
    getKey (oset m k v) k = some v := by
  induction m with
  | nil => simp [oset, getKey]
  | cons p t ih =>
    by_cases h : p.1 == k
    · simp [oset, h, getKey]
    · simp [oset, h, getKey, ih]

theorem getKey_oset_ne (m : List (String × JVal)) (k k2 : String) (v : JVal)
    (h : k ≠ k2) : getKey (oset m k2 v) k = getKey m k := by
  induction m with
  | nil =>
    simp [oset, getKey]
    exact fun hk => h hk.symm
  | cons p t ih =>
    by_cases h2 : p.1 == k2
    · have hpk : ¬ (p.1 == k) := by
        simp only [beq_iff_eq] at h2 ⊢
        simp [h2]
        exact fun hk => absurd hk.symm h
      simp [oset, h2, getKey, hpk]
      intro hk
      exact absurd hk.symm h
    · simp only [oset, h2, if_false, Bool.false_eq_true]
      by_cases h3 : p.1 == k
      · simp [getKey, h3]
      · simp [getKey, h3, ih]

theorem lookupPred_osetPred_self (m : List (String × QPred)) (k : String) (v : QPred) :
    lookupPred (osetPred m k v) k = some v := by
  induction m with
  | nil => simp [osetPred, lookupPred]
  | cons p t ih =>
    by_cases h : p.1 == k
    · simp [osetPred, h, lookupPred]
    · simp [osetPred, h, lookupPred, ih]

theorem lookupPred_osetPred_ne (m : List (String × QPred)) (k k2 : String) (v : QPred)
    (h : k ≠ k2) : lookupPred (osetPred m k2 v) k = lookupPred m k := by
  induction m with
  | nil =>
    simp [osetPred, lookupPred]
    exact fun hk => h hk.symm
  | cons p t ih =>
    by_cases h2 : p.1 == k2
    · have hpk : ¬ (p.1 == k) := by
        simp only [beq_iff_eq] at h2 ⊢
        simp [h2]
        exact fun hk => absurd hk.symm h
      simp [osetPred, h2, lookupPred, hpk]
      intro hk
      exact absurd hk.symm h
    · simp only [osetPred, h2, if_false, Bool.false_eq_true]
      by_cases h3 : p.1 == k
      · simp [lookupPred, h3]
      · simp [lookupPred, h3, ih]

theorem lookupPred_mem (m : List (String × QPred)) (k : String) (p : QPred)
    (h : lookupPred m k = some p) : (k, p) ∈ m := by
  induction m with
  | nil => simp [lookupPred] at h
  | cons q t ih =>
    obtain ⟨q1, q2⟩ := q
    by_cases hq : q1 == k
    · simp only [lookupPred, hq, if_pos, Option.some.injEq] at h
      simp only [beq_iff_eq] at hq
      subst hq
      subst h
      exact List.mem_cons_self _ _
    · simp only [lookupPred, hq, if_neg, Bool.false_eq_true, if_false] at h
      exact List.mem_cons_of_mem _ (ih h)

/-- An equality predicate on a string value matches exactly the records whose
metadata holds that string at the key. -/
theorem predMatch_eq_str (m : List (String × JVal)) (k c : String) :
    predMatch m k { value := .str c, op := "eq" } = true ↔
      getKey m k = some (.str c) := by
  unfold predMatch
  cases hg : getKey m k with
  | none => simp
  | some v =>
    simp only [if_pos rfl]  -- the op is the literal eq
    cases v <;> simp_all [scalarEq]

theorem hashOf_injective (a b : Nat) (h : hashOf a = hashOf b) : a = b := by
  unfold hashOf at h
  have := congrArg String.data h
  simp only [String.data] at this
  have hl := congrArg List.length this
  simpa using hl

theorem hashOf_ne_empty (n : Nat) : hashOf n ≠ "" := by
  unfold hashOf
  intro h
  have := congrArg String.data h
  simp only [String.data] at this
  have hl := congrArg List.length this
  simp at hl

/-! Characterizations of the queries the strategy issues. -/

theorem getKey_jsMerge_subFields_client (m : List (String × JVal)) (ctx : Ctx)
    (i : String) (time : Int) :
    getKey (jsMerge m (subFields ctx i time)) "sub_client" = some (.str ctx.client) := by
  simp only [jsMerge, subFields, List.foldl]
  rw [getKey_oset_self]

theorem getKey_jsMerge_subFields_id (m : List (String × JVal)) (ctx : Ctx)
    (i : String) (time : Int) :
    getKey (jsMerge m (subFields ctx i time)) "sub_id" = some (.str i) := by
  simp only [jsMerge, subFields, List.foldl]
  rw [getKey_oset_ne _ _ _ _ (by decide), getKey_oset_ne _ _ _ _ (by decide),
    getKey_oset_self]

theorem getKey_addMetaKv_client (ctx : Ctx) (i : String) (time : Int)
    (m : List (String × JVal)) (search : Option String) :
    getKey (addMetaKv ctx i time m search) "sub_client" = some (.str ctx.client) := by
  unfold addMetaKv
  cases search with
  | none => exact getKey_jsMerge_subFields_client m ctx i time
  | some s =>
    by_cases hs : s != ""
    · simp only [hs, if_true]
      rw [getKey_oset_ne _ _ _ _ (by decide)]
      exact getKey_jsMerge_subFields_client m ctx i time
    · simp only [hs, Bool.false_eq_true, if_false]
      exact getKey_jsMerge_subFields_client m ctx i time

theorem getKey_addMetaKv_id (ctx : Ctx) (i : String) (time : Int)
    (m : List (String × JVal)) (search : Option String) :
    getKey (addMetaKv ctx i time m search) "sub_id" = some (.str i) := by
  unfold addMetaKv
  cases search with
  | none => exact getKey_jsMerge_subFields_id m ctx i time
  | some s =>
    by_cases hs : s != ""
    · simp only [hs, if_true]
      rw [getKey_oset_ne _ _ _ _ (by decide)]
      exact getKey_jsMerge_subFields_id m ctx i time
    · simp only [hs, Bool.false_eq_true, if_false]
      exact getKey_jsMerge_subFields_id m ctx i time

/-- A record matches the getItemData query exactly when its metadata binds
sub_client to the tenant and sub_id to the composite key. -/
theorem matchesArgs_dataArgs (r : PinRecord) (ctx : Ctx) (h t : String) :
    matchesArgs r (getItemDataArgs ctx h t) = true ↔
      (getKey r.metadata.keyvalues "sub_client" = some (.str ctx.client) ∧
       getKey r.metadata.keyvalues "sub_id" = some (.str (h ++ "/" ++ t))) := by
  simp only [matchesArgs, getItemDataArgs, List.all_cons, List.all_nil,
    Bool.and_true, Bool.true_and, Bool.and_eq_true]
  rw [predMatch_eq_str, predMatch_eq_str]

/-- A record matches the untyped getItem query exactly when it carries the
item hash and binds sub_client to the tenant. -/
theorem matchesArgs_rootArgs (r : PinRecord) (ctx : Ctx) (h : String) :
    matchesArgs r (getItemArgs ctx h none) = true ↔
      (r.ipfs_pin_hash = h ∧
       getKey r.metadata.keyvalues "sub_client" = some (.str ctx.client)) := by
  simp only [matchesArgs, getItemArgs, List.all_cons, List.all_nil,
    Bool.and_true, Bool.and_eq_true, beq_iff_eq]
  rw [predMatch_eq_str]

theorem mem_rootRecords_hash (r : PinRecord) (ctx : Ctx) (h : String)
    (l : List PinRecord) (hr : r ∈ rootRecords ctx h l) : r.ipfs_pin_hash = h := by
  have := (List.mem_filter.mp hr).2
  exact ((matchesArgs_rootArgs r ctx h).mp this).1

/-! Characterizations of the strategy operations. -/

theorem pinList_dataArgs (ctx : Ctx) (h t : String) (st : PinataState) :
    pinList (getItemDataArgs ctx h t) st =
      (liveRecords ctx h t st.records, addTrace st .pinList) := rfl

theorem pinList_rootArgs (ctx : Ctx) (h : String) (st : PinataState) :
    pinList (getItemArgs ctx h none) st =
      (rootRecords ctx h st.records, addTrace st .pinList) := rfl

theorem getItemData_false_spec (ctx : Ctx) (h t : String) (st : PinataState) :
    getItemData ctx h t false st =
      ((match liveRecords ctx h t st.records with
        | [] => Except.ok none
        | r :: _ => Except.ok (some (.raw r))), addTrace st .pinList) := by
  unfold getItemData
  rw [pinList_dataArgs]
  cases hl : liveRecords ctx h t st.records with
  | nil => rfl
  | cons r tl => rfl

theorem removeItemData_nil_spec (ctx : Ctx) (h t : String) (st : PinataState)
    (hl : liveRecords ctx h t st.records = []) :
    removeItemData ctx h t st = (.ok false, addTrace st .pinList) := by
  unfold removeItemData
  rw [getItemData_false_spec, hl]

theorem removeItemData_cons_spec (ctx : Ctx) (h t : String) (st : PinataState)
    (r : PinRecord) (rest : List PinRecord) (hWF : WFState st)
    (hl : liveRecords ctx h t st.records = r :: rest) :
    removeItemData ctx h t st =
      (.ok true, unpin r.ipfs_pin_hash (addTrace st .pinList)) := by
  have hr : r ∈ st.records := by
    have hmem : r ∈ liveRecords ctx h t st.records := by
      rw [hl]; exact List.mem_cons_self _ _
    exact (List.mem_filter.mp hmem).1
  obtain ⟨k, _, hk⟩ := hWF.1 r hr
  have hne : (r.ipfs_pin_hash != "") = true := by
    rw [hk]
    simpa using hashOf_ne_empty k
  unfold removeItemData
  rw [getItemData_false_spec, hl]
  simp only [hne, if_true]

theorem getItem_found_spec (ctx : Ctx) (h : String) (st : PinataState)
    (hf : itemFound ctx h st.records = true) :
    ∃ kv, getItem ctx h none true st = (.ok (some (.parsed kv)), addTrace st .pinList) := by
  unfold itemFound at hf
  rw [Bool.and_eq_true] at hf
  obtain ⟨hne, hm⟩ := hf
  have hne2 : ¬ ((h == "") = true) := by simpa using hne
  cases hroot : rootRecords ctx h st.records with
  | nil => rw [hroot] at hm; simp at hm
  | cons r tl =>
    rw [hroot] at hm
    simp only [Option.isSome_iff_exists] at hm
    obtain ⟨kv, hkv⟩ := hm
    refine ⟨kv, ?_⟩
    unfold getItem
    rw [if_neg hne2, pinList_rootArgs, hroot]
    simp [hkv]

/-! State-effect lemmas. -/

theorem filter_swap {α : Type} (p q : α → Bool) (l : List α) :
    (l.filter p).filter q = (l.filter q).filter p := by
  induction l with
  | nil => rfl
  | cons a l ih =>
    by_cases hp : p a <;> by_cases hq : q a <;>
      simp [List.filter_cons, hp, hq, ih]

theorem liveRecords_append (ctx : Ctx) (h t : String) (l1 l2 : List PinRecord) :
    liveRecords ctx h t (l1 ++ l2) = liveRecords ctx h t l1 ++ liveRecords ctx h t l2 :=
  List.filter_append _ _

theorem liveRecords_filter (ctx : Ctx) (h t : String) (p : PinRecord → Bool)
    (l : List PinRecord) :
    liveRecords ctx h t (l.filter p) = (liveRecords ctx h t l).filter p :=
  filter_swap _ _ l

theorem rootRecords_filter (ctx : Ctx) (h : String) (p : PinRecord → Bool)
    (l : List PinRecord) :
    rootRecords ctx h (l.filter p) = (rootRecords ctx h l).filter p :=
  filter_swap _ _ l

theorem fresh_not_mem (st : PinataState) (hWF : WFState st) :
    ∀ r ∈ st.records, r.ipfs_pin_hash ≠ hashOf st.nextHash := by
  intro r hr heq
  obtain ⟨k, hk, hkh⟩ := hWF.1 r hr
  rw [hkh] at heq
  have := hashOf_injective _ _ heq
  omega

theorem WF_unpin (st : PinataState) (x : String) (hWF : WFState st) :
    WFState (unpin x st) := by
  constructor
  · intro r hr
    exact hWF.1 r (List.mem_filter.mp hr).1
  · exact hWF.2.sublist ((List.filter_sublist _).map _)

theorem WF_addTrace (st : PinataState) (c : Call) (hWF : WFState st) :
    WFState (addTrace st c) := hWF

theorem pinJSONToIPFS_eq (c : JVal) (m : PinMetadata) (st : PinataState) :
    pinJSONToIPFS c m st =
      (hashOf st.nextHash,
       { records := st.records ++
           [{ ipfs_pin_hash := hashOf st.nextHash, metadata := m, content := c }],
         nextHash := st.nextHash + 1,
         trace := st.trace ++ [.pinJSON] }) := rfl

theorem WF_pin (st : PinataState) (c : JVal) (m : PinMetadata) (hWF : WFState st) :
    WFState (pinJSONToIPFS c m st).2 := by
  rw [pinJSONToIPFS_eq]
  unfold WFState
  dsimp only
  constructor
  · intro r hr
    simp only [List.mem_append, List.mem_singleton] at hr
    rcases hr with hr | hr
    · obtain ⟨k, hk, hkh⟩ := hWF.1 r hr
      exact ⟨k, by omega, hkh⟩
    · exact ⟨st.nextHash, by omega, by rw [hr]⟩
  · simp only [List.map_append, List.map_cons, List.map_nil]
    rw [List.nodup_append]
    refine ⟨hWF.2, List.nodup_singleton _, ?_⟩
    intro a ha hb
    simp only [List.mem_singleton] at hb
    simp only [List.mem_map] at ha
    obtain ⟨r, hr, hrh⟩ := ha
    exact fresh_not_mem st hWF r hr (hrh.trans hb)

theorem itemFound_congr (ctx : Ctx) (h : String) (l1 l2 : List PinRecord)
    (hr : rootRecords ctx h l1 = rootRecords ctx h l2) :
    itemFound ctx h l1 = itemFound ctx h l2 := by
  unfold itemFound
  rw [hr]

theorem rootRecords_unpin_ne (ctx : Ctx) (h x : String) (l : List PinRecord)
    (hx : x ≠ h) :
    rootRecords ctx h (l.filter (fun r => r.ipfs_pin_hash != x)) = rootRecords ctx h l := by
  rw [rootRecords_filter]
  apply List.filter_eq_self.mpr
  intro r hr
  have hh := mem_rootRecords_hash r ctx h l hr
  rw [hh]
  simpa using fun heq => hx heq.symm

theorem rootRecords_append_single (ctx : Ctx) (h : String) (l : List PinRecord)
    (newR : PinRecord) (hnew : newR.ipfs_pin_hash ≠ h) :
    rootRecords ctx h (l ++ [newR]) = rootRecords ctx h l := by
  unfold rootRecords
  rw [List.filter_append]
  have hf : matchesArgs newR (getItemArgs ctx h none) = false := by
    rw [Bool.eq_false_iff]
    intro htrue
    exact hnew ((matchesArgs_rootArgs newR ctx h).mp htrue).1
  simp [List.filter_cons, hf]

theorem liveRecords_append_single_match (ctx : Ctx) (h t : String)
    (l : List PinRecord) (newR : PinRecord)
    (hm : matchesArgs newR (getItemDataArgs ctx h t) = true) :
    liveRecords ctx h t (l ++ [newR]) = liveRecords ctx h t l ++ [newR] := by
  unfold liveRecords
  rw [List.filter_append]
  simp [List.filter_cons, hm]

/-- The data record addItemData pins for a key, given the assigned hash. -/
def newDataRecord (ctx : Ctx) (itemHash type : String) (fs kv : List (String × JVal))
    (search : Option String) (time : Int) (hsh : String) : PinRecord :=
  { ipfs_pin_hash := hsh,
    metadata := { name := itemHash ++ "/" ++ type,
                  keyvalues := addMetaKv ctx (itemHash ++ "/" ++ type) time kv search },
    content := .obj (jsMerge fs (subFields ctx (itemHash ++ "/" ++ type) time)) }

theorem newDataRecord_matches (ctx : Ctx) (h t : String) (fs kv : List (String × JVal))
    (search : Option String) (time : Int) (hsh : String) :
    matchesArgs (newDataRecord ctx h t fs kv search time hsh) (getItemDataArgs ctx h t)
      = true := by
  rw [matchesArgs_dataArgs]
  exact ⟨getKey_addMetaKv_client .., getKey_addMetaKv_id ..⟩
theorem addItemData_obj_nil_run (ctx : Ctx) (h t : String)
    (fs kv : List (String × JVal)) (search : Option String) (time : Int)
    (st : PinataState) (hFound : itemFound ctx h st.records = true)
    (hl : liveRecords ctx h t st.records = []) :
    addItemData ctx h t (.obj fs) false kv search time st =
      (.ok (hashOf st.nextHash),
       { records := st.records ++
           [newDataRecord ctx h t fs kv search time (hashOf st.nextHash)],
         nextHash := st.nextHash + 1,
         trace := st.trace ++ [.pinList, .pinList, .pinJSON] }) := by
  obtain ⟨ikv, hgi⟩ := getItem_found_spec ctx h st hFound
  have hl1 : liveRecords ctx h t (addTrace st .pinList).records = [] := hl
  have hrm := removeItemData_nil_spec ctx h t (addTrace st .pinList) hl1
  simp only [addItemData, hgi, hrm, Bool.not_false, if_true, pinJSONToIPFS_eq]
  simp [addTrace, newDataRecord, List.append_assoc, addMetaKv]

theorem addItemData_obj_cons_run (ctx : Ctx) (h t : String)
    (fs kv : List (String × JVal)) (search : Option String) (time : Int)
    (st : PinataState) (r : PinRecord) (rest : List PinRecord)
    (hWF : WFState st) (hFound : itemFound ctx h st.records = true)
    (hl : liveRecords ctx h t st.records = r :: rest) :
    addItemData ctx h t (.obj fs) false kv search time st =
      (.ok (hashOf st.nextHash),
       { records := st.records.filter (fun x => x.ipfs_pin_hash != r.ipfs_pin_hash) ++
           [newDataRecord ctx h t fs kv search time (hashOf st.nextHash)],
         nextHash := st.nextHash + 1,
         trace := st.trace ++ [.pinList, .pinList, .unpinCall r.ipfs_pin_hash, .pinJSON] }) := by
  obtain ⟨ikv, hgi⟩ := getItem_found_spec ctx h st hFound
  have hl1 : liveRecords ctx h t (addTrace st .pinList).records = r :: rest := hl
  have hrm := removeItemData_cons_spec ctx h t (addTrace st .pinList) r rest
    (WF_addTrace st .pinList hWF) hl1
  simp only [addItemData, hgi, hrm, Bool.not_false, if_true, pinJSONToIPFS_eq]
  simp [addTrace, unpin, newDataRecord, List.append_assoc, addMetaKv]


theorem addItemData_nonobj_nil_run (ctx : Ctx) (h t : String) (data : JVal)
    (kv : List (String × JVal)) (search : Option String) (time : Int)
    (st : PinataState) (hFound : itemFound ctx h st.records = true)
    (hl : liveRecords ctx h t st.records = [])
    (hData : isPlainObject data = false) :
    addItemData ctx h t data false kv search time st =
      (.error .dataMustBeObject,
       { records := st.records, nextHash := st.nextHash,
         trace := st.trace ++ [.pinList, .pinList] }) := by
  obtain ⟨ikv, hgi⟩ := getItem_found_spec ctx h st hFound
  have hl1 : liveRecords ctx h t (addTrace st .pinList).records = [] := hl
  have hrm := removeItemData_nil_spec ctx h t (addTrace st .pinList) hl1
  simp only [addItemData, hgi, hrm, Bool.not_false, if_true]
  cases data <;> simp_all [isPlainObject, addTrace, List.append_assoc]

theorem addItemData_nonobj_cons_run (ctx : Ctx) (h t : String) (data : JVal)
    (kv : List (String × JVal)) (search : Option String) (time : Int)
    (st : PinataState) (r : PinRecord) (rest : List PinRecord)
    (hWF : WFState st) (hFound : itemFound ctx h st.records = true)
    (hl : liveRecords ctx h t st.records = r :: rest)
    (hData : isPlainObject data = false) :
    addItemData ctx h t data false kv search time st =
      (.error .dataMustBeObject,
       { records := st.records.filter (fun x => x.ipfs_pin_hash != r.ipfs_pin_hash),
         nextHash := st.nextHash,
         trace := st.trace ++ [.pinList, .pinList, .unpinCall r.ipfs_pin_hash] }) := by
  obtain ⟨ikv, hgi⟩ := getItem_found_spec ctx h st hFound
  have hl1 : liveRecords ctx h t (addTrace st .pinList).records = r :: rest := hl
  have hrm := removeItemData_cons_spec ctx h t (addTrace st .pinList) r rest
    (WF_addTrace st .pinList hWF) hl1
  simp only [addItemData, hgi, hrm, Bool.not_false, if_true]
  cases data <;> simp_all [isPlainObject, addTrace, unpin, List.append_assoc]

/-- The standing invariant for a data key: the backend is well formed, the
parent item is found by getItem, at most one live record exists for the key,
and no live record for the key is the item root itself. -/
structure GoodKey (ctx : Ctx) (h t : String) (st : PinataState) : Prop where
  wf : WFState st
  found : itemFound ctx h st.records = true
  count : (liveRecords ctx h t st.records).length ≤ 1
  sep : ∀ r ∈ liveRecords ctx h t st.records, r.ipfs_pin_hash ≠ h

theorem WF_of_eq (st1 : PinataState) (hWF : WFState st1) (st2 : PinataState)
    (hrec : st2.records = st1.records) (hn : st2.nextHash = st1.nextHash) :
    WFState st2 := by
  unfold WFState
  rw [hrec, hn]
  exact hWF

theorem WF_append_fresh (l : List PinRecord) (n : Nat) (tr : List Call)
    (hWF : WFState (PinataState.mk l n tr)) (newR : PinRecord)
    (hh : newR.ipfs_pin_hash = hashOf n) (tr2 : List Call) :
    WFState (PinataState.mk (l ++ [newR]) (n + 1) tr2) := by
  unfold WFState
  dsimp only
  constructor
  · intro r hr
    simp only [List.mem_append, List.mem_singleton] at hr
    rcases hr with hr | hr
    · obtain ⟨k, hk, hkh⟩ := hWF.1 r hr
      have hk2 : k < n := hk
      exact ⟨k, by omega, hkh⟩
    · exact ⟨n, by omega, by rw [hr]; exact hh⟩
  · simp only [List.map_append, List.map_cons, List.map_nil]
    rw [List.nodup_append]
    refine ⟨hWF.2, List.nodup_singleton _, ?_⟩
    intro a ha hb
    simp only [List.mem_singleton] at hb
    simp only [List.mem_map] at ha
    obtain ⟨r, hr, hrh⟩ := ha
    exact fresh_not_mem (PinataState.mk l n tr) hWF r hr (hrh.trans (hb.trans hh))

theorem itemHash_lt_nextHash (ctx : Ctx) (h : String) (st : PinataState)
    (hWF : WFState st) (hFound : itemFound ctx h st.records = true) :
    ∃ k, k < st.nextHash ∧ h = hashOf k := by
  unfold itemFound at hFound
  rw [Bool.and_eq_true] at hFound
  obtain ⟨-, hm⟩ := hFound
  cases hroot : rootRecords ctx h st.records with
  | nil => rw [hroot] at hm; simp at hm
  | cons r tl =>
    have hrmem : r ∈ st.records := by
      have : r ∈ rootRecords ctx h st.records := by
        rw [hroot]; exact List.mem_cons_self _ _
      exact (List.mem_filter.mp this).1
    obtain ⟨k, hk, hkh⟩ := hWF.1 r hrmem
    have hrh : r.ipfs_pin_hash = h := mem_rootRecords_hash r ctx h st.records
      (by rw [hroot]; exact List.mem_cons_self _ _)
    exact ⟨k, hk, by rw [← hrh, hkh]⟩

theorem fresh_ne_itemHash (ctx : Ctx) (h : String) (st : PinataState)
    (hWF : WFState st) (hFound : itemFound ctx h st.records = true) :
    hashOf st.nextHash ≠ h := by
  obtain ⟨k, hk, hkh⟩ := itemHash_lt_nextHash ctx h st hWF hFound
  rw [hkh]
  intro heq
  have := hashOf_injective _ _ heq
  omega

/-- One keep=false write with an object body preserves the key invariant and
leaves exactly the freshly stamped record live for the key. -/
theorem addItemData_step (ctx : Ctx) (h t : String)
    (fs kv : List (String × JVal)) (search : Option String) (time : Int)
    (st : PinataState) (hg : GoodKey ctx h t st) :
    GoodKey ctx h t (addItemData ctx h t (.obj fs) false kv search time st).2 ∧
    liveRecords ctx h t (addItemData ctx h t (.obj fs) false kv search time st).2.records
      = [newDataRecord ctx h t fs kv search time (hashOf st.nextHash)] := by
  have hfresh : hashOf st.nextHash ≠ h := fresh_ne_itemHash ctx h st hg.wf hg.found
  have hmatch := newDataRecord_matches ctx h t fs kv search time (hashOf st.nextHash)
  cases hl : liveRecords ctx h t st.records with
  | nil =>
    rw [addItemData_obj_nil_run ctx h t fs kv search time st hg.found hl]
    dsimp only
    have hlive : liveRecords ctx h t
        (st.records ++ [newDataRecord ctx h t fs kv search time (hashOf st.nextHash)])
        = [newDataRecord ctx h t fs kv search time (hashOf st.nextHash)] := by
      rw [liveRecords_append_single_match ctx h t st.records _ hmatch, hl]
      rfl
    have hroot : rootRecords ctx h
        (st.records ++ [newDataRecord ctx h t fs kv search time (hashOf st.nextHash)])
        = rootRecords ctx h st.records :=
      rootRecords_append_single ctx h st.records _ hfresh
    refine ⟨⟨?_, ?_, ?_, ?_⟩, hlive⟩
    · exact WF_append_fresh st.records st.nextHash st.trace
        (WF_of_eq st hg.wf _ rfl rfl) _ rfl _
    · rw [itemFound_congr ctx h _ _ hroot]
      exact hg.found
    · rw [hlive]
      simp
    · rw [hlive]
      intro x hx
      rw [List.mem_singleton] at hx
      rw [hx]
      exact hfresh
  | cons r rest =>
    have hrest : rest = [] := by
      have hc := hg.count
      rw [hl] at hc
      simpa using hc
    subst hrest
    have hrh : r.ipfs_pin_hash ≠ h := hg.sep r (by rw [hl]; exact List.mem_cons_self _ _)
    rw [addItemData_obj_cons_run ctx h t fs kv search time st r [] hg.wf hg.found hl]
    dsimp only
    have hliveF : liveRecords ctx h t
        (st.records.filter (fun x => x.ipfs_pin_hash != r.ipfs_pin_hash)) = [] := by
      rw [liveRecords_filter, hl]
      simp [List.filter_cons]
    have hWFf : WFState (PinataState.mk
        (st.records.filter (fun x => x.ipfs_pin_hash != r.ipfs_pin_hash))
        st.nextHash st.trace) :=
      WF_of_eq (unpin r.ipfs_pin_hash st) (WF_unpin st _ hg.wf) _ rfl rfl
    have hlive : liveRecords ctx h t
        (st.records.filter (fun x => x.ipfs_pin_hash != r.ipfs_pin_hash) ++
          [newDataRecord ctx h t fs kv search time (hashOf st.nextHash)])
        = [newDataRecord ctx h t fs kv search time (hashOf st.nextHash)] := by
      rw [liveRecords_append_single_match ctx h t _ _ hmatch, hliveF]
      rfl
    have hroot : rootRecords ctx h
        (st.records.filter (fun x => x.ipfs_pin_hash != r.ipfs_pin_hash) ++
          [newDataRecord ctx h t fs kv search time (hashOf st.nextHash)])
        = rootRecords ctx h st.records := by
      rw [rootRecords_append_single ctx h _ _ hfresh,
        rootRecords_unpin_ne ctx h r.ipfs_pin_hash st.records hrh]
    refine ⟨⟨?_, ?_, ?_, ?_⟩, hlive⟩
    · exact WF_append_fresh _ st.nextHash st.trace hWFf _ rfl _
    · rw [itemFound_congr ctx h _ _ hroot]
      exact hg.found
    · rw [hlive]
      simp
    · rw [hlive]
      intro x hx
      rw [List.mem_singleton] at hx
      rw [hx]
      exact hfresh

/-- One call in a sequence of keep=false writes to a fixed key. -/
structure AddCall where
  data : List (String × JVal)
  kv : List (String × JVal)
  search : Option String
  time : Int

/-- Run a sequence of keep=false addItemData calls against one key. -/
def runAdds (ctx : Ctx) (h t : String) (calls : List AddCall) (st : PinataState) :
    PinataState :=
  calls.foldl
    (fun s c => (addItemData ctx h t (.obj c.data) false c.kv c.search c.time s).2) st

theorem runAdds_goodKey (ctx : Ctx) (h t : String) (calls : List AddCall)
    (st : PinataState) (hg : GoodKey ctx h t st) :
    GoodKey ctx h t (runAdds ctx h t calls st) := by
  induction calls generalizing st with
  | nil => exact hg
  | cons c cs ih =>
    have hstep := addItemData_step ctx h t c.data c.kv c.search c.time st hg
    exact ih _ hstep.1

theorem runAdds_append_one (ctx : Ctx) (h t : String) (calls : List AddCall)
    (c : AddCall) (st : PinataState) :
    runAdds ctx h t (calls ++ [c]) st =
      (addItemData ctx h t (.obj c.data) false c.kv c.search c.time
        (runAdds ctx h t calls st)).2 := by
  unfold runAdds
  rw [List.foldl_append]
  rfl

/-- Claim C3: after any sequence of keep=false addItemData calls for a key
(starting from a state with no live record for it and an existing parent
item), at most one live data record exists for the key, and its body is the
caller data of the most recent call stamped with the linkage fields. -/
theorem addItemData_keepFalse_unique (ctx : Ctx) (h t : String)
    (calls : List AddCall) (st : PinataState)
    (hWF : WFState st) (hFound : itemFound ctx h st.records = true)
    (hEmpty : liveRecords ctx h t st.records = []) :
    countLive ctx h t (runAdds ctx h t calls st) ≤ 1 ∧
    (∀ rest c, calls = rest ++ [c] →
      (liveRecords ctx h t (runAdds ctx h t calls st).records).map (fun r => r.content)
        = [.obj (jsMerge c.data (subFields ctx (h ++ "/" ++ t) c.time))]) := by
  have hg : GoodKey ctx h t st :=
    ⟨hWF, hFound, by rw [hEmpty]; simp, by rw [hEmpty]; simp⟩
  constructor
  · exact (runAdds_goodKey ctx h t calls st hg).count
  · intro rest c hc
    subst hc
    rw [runAdds_append_one]
    have hg2 := runAdds_goodKey ctx h t rest st hg
    have hstep := addItemData_step ctx h t c.data c.kv c.search c.time _ hg2
    rw [hstep.2]
    rfl

/-- Witness: two keep=false writes to the key (item hash, b) on the concrete
state leave one live record holding the second body. -/
theorem addItemData_keepFalse_unique_witness :
    countLive ctxA (hashOf 0) "b"
        (runAdds ctxA (hashOf 0) "b"
          [⟨[("v", .str "1")], [], none, 8⟩, ⟨[("v", .str "2")], [], none, 9⟩] exSt) ≤ 1 ∧
    (liveRecords ctxA (hashOf 0) "b"
        (runAdds ctxA (hashOf 0) "b"
          [⟨[("v", .str "1")], [], none, 8⟩, ⟨[("v", .str "2")], [], none, 9⟩] exSt).records).map
      (fun r => r.content)
      = [.obj (jsMerge [("v", .str "2")] (subFields ctxA (hashOf 0 ++ "/b") 9))] := by
  have hthm := addItemData_keepFalse_unique ctxA (hashOf 0) "b"
    [⟨[("v", .str "1")], [], none, 8⟩, ⟨[("v", .str "2")], [], none, 9⟩] exSt
    (by constructor <;> decide) (by decide) (by rfl)
  exact ⟨hthm.1, hthm.2 [⟨[("v", .str "1")], [], none, 8⟩]
    ⟨[("v", .str "2")], [], none, 9⟩ rfl⟩

/-- Claim C6: removeItemData removes the live record when one exists and
reports true, reports false when nothing matches, and never throws; two
calls in a row return true (when a record was live) then false. -/
theorem removeItemData_true_then_false (ctx : Ctx) (h t : String) (st : PinataState)
    (hWF : WFState st) (hCount : countLive ctx h t st ≤ 1) :
    (removeItemData ctx h t st).1 = .ok (countLive ctx h t st == 1) ∧
    countLive ctx h t (removeItemData ctx h t st).2 = 0 ∧
    (removeItemData ctx h t (removeItemData ctx h t st).2).1 = .ok false := by
  cases hl : liveRecords ctx h t st.records with
  | nil =>
    have h0 : countLive ctx h t st = 0 := by unfold countLive; rw [hl]; rfl
    rw [removeItemData_nil_spec ctx h t st hl]
    refine ⟨by rw [h0]; rfl, ?_, ?_⟩
    · unfold countLive at h0 ⊢
      exact h0
    · rw [removeItemData_nil_spec ctx h t (addTrace st .pinList) hl]
  | cons r rest =>
    have hrest : rest = [] := by
      unfold countLive at hCount
      rw [hl] at hCount
      simpa using hCount
    subst hrest
    have h1 : countLive ctx h t st = 1 := by unfold countLive; rw [hl]; rfl
    rw [removeItemData_cons_spec ctx h t st r [] hWF hl]
    have hafter : liveRecords ctx h t
        (unpin r.ipfs_pin_hash (addTrace st .pinList)).records = [] := by
      have hrec : (unpin r.ipfs_pin_hash (addTrace st .pinList)).records
          = st.records.filter (fun x => x.ipfs_pin_hash != r.ipfs_pin_hash) := rfl
      rw [hrec, liveRecords_filter, hl]
      simp [List.filter_cons]
    refine ⟨by rw [h1]; rfl, ?_, ?_⟩
    · unfold countLive
      rw [hafter]
      rfl
    · rw [removeItemData_nil_spec ctx h t _ hafter]

/-- Witness: removing the type-a record of the concrete state returns true
then false. -/
theorem removeItemData_true_then_false_witness :
    (removeItemData ctxA (hashOf 0) "a" exSt).1 = .ok (countLive ctxA (hashOf 0) "a" exSt == 1) ∧
    countLive ctxA (hashOf 0) "a" (removeItemData ctxA (hashOf 0) "a" exSt).2 = 0 ∧
    (removeItemData ctxA (hashOf 0) "a" (removeItemData ctxA (hashOf 0) "a" exSt).2).1
      = .ok false :=
  removeItemData_true_then_false ctxA (hashOf 0) "a" exSt
    (by constructor <;> decide) (by decide)

/-- Claim C10: when a live record exists for the key, a keep=false
addItemData call with a non-object body fails with the validation error only
after the existing record has been removed: the call errors, the key has no
live record afterwards, and the state differs from the initial one. -/
theorem addItemData_invalid_after_removal (ctx : Ctx) (h t : String) (data : JVal)
    (kv : List (String × JVal)) (search : Option String) (time : Int) (st : PinataState)
    (hWF : WFState st) (hFound : itemFound ctx h st.records = true)
    (hOne : countLive ctx h t st = 1) (hData : isPlainObject data = false) :
    (addItemData ctx h t data false kv search time st).1 = .error .dataMustBeObject ∧
    countLive ctx h t (addItemData ctx h t data false kv search time st).2 = 0 ∧
    (addItemData ctx h t data false kv search time st).2.records ≠ st.records := by
  cases hl : liveRecords ctx h t st.records with
  | nil =>
    unfold countLive at hOne
    rw [hl] at hOne
    simp at hOne
  | cons r rest =>
    have hrest : rest = [] := by
      unfold countLive at hOne
      rw [hl] at hOne
      simpa using hOne
    subst hrest
    rw [addItemData_nonobj_cons_run ctx h t data kv search time st r [] hWF hFound hl hData]
    dsimp only
    have hafter : liveRecords ctx h t
        (st.records.filter (fun x => x.ipfs_pin_hash != r.ipfs_pin_hash)) = [] := by
      rw [liveRecords_filter, hl]
      simp [List.filter_cons]
    refine ⟨rfl, ?_, ?_⟩
    · unfold countLive
      dsimp only
      rw [hafter]
      rfl
    · intro heq
      have hcong := congrArg (fun l => liveRecords ctx h t l) heq
      dsimp only at hcong
      rw [hafter, hl] at hcong
      exact List.cons_ne_nil r [] hcong.symm

/-- Witness: the invalid write on the concrete state errors with the type-a
record already gone. -/
theorem addItemData_invalid_after_removal_witness :
    (addItemData ctxA (hashOf 0) "a" (.str "oops") false [] none 9 exSt).1
      = .error .dataMustBeObject ∧
    countLive ctxA (hashOf 0) "a"
      (addItemData ctxA (hashOf 0) "a" (.str "oops") false [] none 9 exSt).2 = 0 ∧
    (addItemData ctxA (hashOf 0) "a" (.str "oops") false [] none 9 exSt).2.records
      ≠ exSt.records :=
  addItemData_invalid_after_removal ctxA (hashOf 0) "a" (.str "oops") [] none 9 exSt
    (by constructor <;> decide) (by decide) (by decide) rfl

/-- With keep=true, an invalid data body makes addItemData fail with the
validation error after the item-existence read alone: the store is unchanged
and the trace records one query. -/
theorem addItemData_nonobj_keep_run (ctx : Ctx) (h t : String) (data : JVal)
    (kv : List (String × JVal)) (search : Option String) (time : Int)
    (st : PinataState) (hFound : itemFound ctx h st.records = true)
    (hData : isPlainObject data = false) :
    addItemData ctx h t data true kv search time st =
      (.error .dataMustBeObject,
       { records := st.records, nextHash := st.nextHash,
         trace := st.trace ++ [.pinList] }) := by
  obtain ⟨ikv, hgi⟩ := getItem_found_spec ctx h st hFound
  simp only [addItemData, hgi, Bool.not_true, Bool.false_eq_true, if_false]
  cases data <;> simp_all [isPlainObject, addTrace]

/-- Claim C4 (amended): addItemData rejects a non-object data body with the
validation error, but the rejection happens after backend traffic: the
item-existence read always precedes the error, for any keep flag; with the
keep=false default the cascading removal lookup has also been issued and any
live record for the key has already been unpinned, while with keep=true the
key count is unchanged. -/
theorem addItemData_validation_after_network (ctx : Ctx) (h t : String) (data : JVal)
    (keep : Bool) (kv : List (String × JVal)) (search : Option String) (time : Int)
    (st : PinataState)
    (hWF : WFState st) (hFound : itemFound ctx h st.records = true)
    (hCount : countLive ctx h t st ≤ 1) (hData : isPlainObject data = false) :
    (addItemData ctx h t data keep kv search time st).1 = .error .dataMustBeObject ∧
    (addItemData ctx h t data keep kv search time st).2.trace =
      st.trace ++ [.pinList] ++
        (if keep then []
         else [.pinList] ++
           (match liveRecords ctx h t st.records with
            | [] => []
            | r :: _ => [.unpinCall r.ipfs_pin_hash])) ∧
    countLive ctx h t (addItemData ctx h t data keep kv search time st).2 =
      (if keep then countLive ctx h t st else 0) := by
  cases keep with
  | true =>
    rw [addItemData_nonobj_keep_run ctx h t data kv search time st hFound hData]
    refine ⟨rfl, by simp, rfl⟩
  | false =>
    cases hl : liveRecords ctx h t st.records with
    | nil =>
      rw [addItemData_nonobj_nil_run ctx h t data kv search time st hFound hl hData]
      dsimp only
      refine ⟨rfl, by simp, ?_⟩
      unfold countLive
      dsimp only
      rw [hl]
      rfl
    | cons r rest =>
      have hrest : rest = [] := by
        unfold countLive at hCount
        rw [hl] at hCount
        simpa using hCount
      subst hrest
      rw [addItemData_nonobj_cons_run ctx h t data kv search time st r [] hWF hFound hl hData]
      dsimp only
      have hafter : liveRecords ctx h t
          (st.records.filter (fun x => x.ipfs_pin_hash != r.ipfs_pin_hash)) = [] := by
        rw [liveRecords_filter, hl]
        simp [List.filter_cons]
      refine ⟨rfl, by simp, ?_⟩
      unfold countLive
      dsimp only
      rw [hafter]
      rfl

/-- Witness: the invalid keep=false write on the concrete state shows the
backend trace preceding the validation error and the record already gone. -/
theorem addItemData_validation_after_network_witness :
    (addItemData ctxA (hashOf 0) "a" (.str "oops") false [] none 9 exSt).1
      = .error .dataMustBeObject ∧
    (addItemData ctxA (hashOf 0) "a" (.str "oops") false [] none 9 exSt).2.trace =
      exSt.trace ++ [.pinList] ++
        (if false then []
         else [.pinList] ++
           (match liveRecords ctxA (hashOf 0) "a" exSt.records with
            | [] => []
            | r :: _ => [.unpinCall r.ipfs_pin_hash])) ∧
    countLive ctxA (hashOf 0) "a"
      (addItemData ctxA (hashOf 0) "a" (.str "oops") false [] none 9 exSt).2 =
      (if false then countLive ctxA (hashOf 0) "a" exSt else 0) :=
  addItemData_validation_after_network ctxA (hashOf 0) "a" (.str "oops") false [] none 9 exSt
    (by constructor <;> decide) (by decide) (by decide) rfl

/-- Claim C4 counterexample: on a state holding the item and a live record of
type a, addItemData with a non-object body raises the validation error only
after two backend reads and an unpin have been issued, refuting that the
error precedes any network call. -/
theorem addItemData_network_before_validation_cex :
    (addItemData ctxA (hashOf 0) "a" (.str "oops") false [] none 9 exSt).1
      = .error .dataMustBeObject ∧
    (addItemData ctxA (hashOf 0) "a" (.str "oops") false [] none 9 exSt).2.trace
      = [.pinList, .pinList, .unpinCall (hashOf 1)] :=
  ⟨rfl, rfl⟩

/-! Tenant isolation lemmas. -/

theorem getItem_lookupPred_client (ctx : Ctx) (ih : String) (ty : Option String) :
    lookupPred (getItemArgs ctx ih ty).keyvalues "sub_client"
      = some { value := .str ctx.client, op := "eq" } := by
  unfold getItemArgs
  cases ty <;> rfl

theorem getItemData_lookupPred_client (ctx : Ctx) (ih t : String) :
    lookupPred (getItemDataArgs ctx ih t).keyvalues "sub_client"
      = some { value := .str ctx.client, op := "eq" } := rfl

theorem getItems_lookupPred_client (ctx : Ctx) (ty : Option String) (page limit : Int)
    (kv : List (String × JVal)) (owner : Option String) :
    lookupPred (getItemsArgs ctx ty page limit kv owner).keyvalues "sub_client"
      = some { value := .str ctx.client, op := "eq" } := by
  unfold getItemsArgs
  cases owner with
  | none =>
    dsimp only
    rw [lookupPred_osetPred_ne _ _ _ _ (by decide), lookupPred_osetPred_self]
  | some o =>
    dsimp only
    rw [lookupPred_osetPred_ne _ _ _ _ (by decide),
      lookupPred_osetPred_ne _ _ _ _ (by decide), lookupPred_osetPred_self]

theorem matchesArgs_client (r : PinRecord) (a : PinListArgs) (c : String)
    (hp : lookupPred a.keyvalues "sub_client" = some { value := .str c, op := "eq" })
    (hm : matchesArgs r a = true) :
    getKey r.metadata.keyvalues "sub_client" = some (.str c) := by
  have hmem := lookupPred_mem _ _ _ hp
  unfold matchesArgs at hm
  rw [Bool.and_eq_true] at hm
  have hall := hm.2
  rw [List.all_eq_true] at hall
  have hone := hall ("sub_client", { value := .str c, op := "eq" }) hmem
  exact (predMatch_eq_str _ _ _).mp hone

theorem clients_agree (r : PinRecord) (a1 a2 : PinListArgs) (c1 c2 : String)
    (hp1 : lookupPred a1.keyvalues "sub_client" = some { value := .str c1, op := "eq" })
    (hp2 : lookupPred a2.keyvalues "sub_client" = some { value := .str c2, op := "eq" })
    (hm1 : matchesArgs r a1 = true) (hm2 : matchesArgs r a2 = true) : c1 = c2 := by
  have h1 := matchesArgs_client r a1 c1 hp1 hm1
  have h2 := matchesArgs_client r a2 c2 hp2 hm2
  rw [h1] at h2
  simpa using h2

/-- Claim C7: every lookup query (getItem, getItems, getItemData) carries an
equality predicate on the configured tenant identifier that the caller cannot
override (caller keyvalues mentioning sub_client are replaced), so records
matched for one tenant are never matched for a differently configured
tenant. -/
theorem tenant_isolation (c1 c2 : Ctx) :
    (∀ ih ty, lookupPred (getItemArgs c1 ih ty).keyvalues "sub_client"
        = some { value := .str c1.client, op := "eq" }) ∧
    (∀ ih t, lookupPred (getItemDataArgs c1 ih t).keyvalues "sub_client"
        = some { value := .str c1.client, op := "eq" }) ∧
    (∀ ty page limit kv owner,
        lookupPred (getItemsArgs c1 ty page limit kv owner).keyvalues "sub_client"
          = some { value := .str c1.client, op := "eq" }) ∧
    (c1.client ≠ c2.client →
      (∀ r ih ty ih2 ty2, matchesArgs r (getItemArgs c1 ih ty) = true →
          matchesArgs r (getItemArgs c2 ih2 ty2) = false) ∧
      (∀ r ih t ih2 t2, matchesArgs r (getItemDataArgs c1 ih t) = true →
          matchesArgs r (getItemDataArgs c2 ih2 t2) = false) ∧
      (∀ r ty page limit kv owner ty2 page2 limit2 kv2 owner2,
          matchesArgs r (getItemsArgs c1 ty page limit kv owner) = true →
          matchesArgs r (getItemsArgs c2 ty2 page2 limit2 kv2 owner2) = false)) := by
  refine ⟨getItem_lookupPred_client c1, getItemData_lookupPred_client c1,
    getItems_lookupPred_client c1, fun hne => ⟨?_, ?_, ?_⟩⟩
  · intro r ih ty ih2 ty2 hm1
    rw [Bool.eq_false_iff]
    intro hm2
    exact hne (clients_agree r _ _ _ _ (getItem_lookupPred_client c1 ih ty)
      (getItem_lookupPred_client c2 ih2 ty2) hm1 hm2)
  · intro r ih t ih2 t2 hm1
    rw [Bool.eq_false_iff]
    intro hm2
    exact hne (clients_agree r _ _ _ _ (getItemData_lookupPred_client c1 ih t)
      (getItemData_lookupPred_client c2 ih2 t2) hm1 hm2)
  · intro r ty page limit kv owner ty2 page2 limit2 kv2 owner2 hm1
    rw [Bool.eq_false_iff]
    intro hm2
    exact hne (clients_agree r _ _ _ _
      (getItems_lookupPred_client c1 ty page limit kv owner)
      (getItems_lookupPred_client c2 ty2 page2 limit2 kv2 owner2) hm1 hm2)

/-- Witness: a caller-supplied sub_client filter is overridden for tenant
acme, and the record of tenant acme never matches a query of tenant evil. -/
theorem tenant_isolation_witness :
    lookupPred (getItemsArgs { client := "acme" } (some "t") 1 10
        [("sub_client", .str "evil")] none).keyvalues "sub_client"
      = some { value := .str "acme", op := "eq" } ∧
    matchesArgs dataRecA (getItemDataArgs { client := "acme" } (hashOf 0) "a") = true ∧
    matchesArgs dataRecA (getItemDataArgs { client := "evil" } (hashOf 0) "a") = false := by
  have h := tenant_isolation { client := "acme" } { client := "evil" }
  refine ⟨h.2.2.1 (some "t") 1 10 [("sub_client", .str "evil")] none, by decide, ?_⟩
  exact (h.2.2.2 (by decide)).2.1 dataRecA (hashOf 0) "a" (hashOf 0) "a" (by decide)

/-- Claim C9: getItems clamps a page below 1 to page 1 (whatever the limit)
and a limit below 1 to the default 10 (whatever the page), each time issuing
the identical backend query and returning the same result; in particular
page 0 with limit -5 behaves as page 1 with limit 10, and pagination values
never cause a rejection. -/
theorem getItems_clamps_pagination (ctx : Ctx) (ty : Option String)
    (kv : List (String × JVal)) (owner : Option String) (st : PinataState) :
    (∀ page limit : Int, page < 1 →
      getItemsArgs ctx ty page limit kv owner = getItemsArgs ctx ty 1 limit kv owner ∧
      getItems ctx ty page limit kv owner st = getItems ctx ty 1 limit kv owner st) ∧
    (∀ page limit : Int, limit < 1 →
      getItemsArgs ctx ty page limit kv owner = getItemsArgs ctx ty page 10 kv owner ∧
      getItems ctx ty page limit kv owner st = getItems ctx ty page 10 kv owner st) ∧
    (∀ page limit : Int, page < 1 → limit < 1 →
      getItemsArgs ctx ty page limit kv owner = getItemsArgs ctx ty 1 10 kv owner ∧
      getItems ctx ty page limit kv owner st = getItems ctx ty 1 10 kv owner st) ∧
    (∀ page limit : Int, ∃ rows, (getItems ctx ty page limit kv owner st).1 = .ok rows) := by
  refine ⟨?_, ?_, ?_, ?_⟩
  · intro page limit hp
    have hargs : getItemsArgs ctx ty page limit kv owner
        = getItemsArgs ctx ty 1 limit kv owner := by
      unfold getItemsArgs
      rw [if_pos hp, if_neg (by decide : ¬ ((1 : Int) < 1))]
    exact ⟨hargs, by unfold getItems; rw [hargs]⟩
  · intro page limit hl
    have hargs : getItemsArgs ctx ty page limit kv owner
        = getItemsArgs ctx ty page 10 kv owner := by
      unfold getItemsArgs
      rw [if_pos hl, if_neg (by decide : ¬ ((10 : Int) < 1))]
    exact ⟨hargs, by unfold getItems; rw [hargs]⟩
  · intro page limit hp hl
    have hargs : getItemsArgs ctx ty page limit kv owner
        = getItemsArgs ctx ty 1 10 kv owner := by
      unfold getItemsArgs
      rw [if_pos hp, if_pos hl, if_neg (by decide : ¬ ((1 : Int) < 1)),
        if_neg (by decide : ¬ ((10 : Int) < 1))]
    exact ⟨hargs, by unfold getItems; rw [hargs]⟩
  · intro page limit
    unfold getItems
    rcases hq : pinList (getItemsArgs ctx ty page limit kv owner) st with ⟨rows, st2⟩
    by_cases hr : rows.length < 1
    · exact ⟨[], by simp [hr]⟩
    · exact ⟨rows.map parseItem, by simp [hr]⟩

/-- Witness: page 0 with limit 20 issues the page-1 query, page 2 with limit
0 issues the limit-10 query, and page 0 with limit -5 returns the same
result as page 1 with limit 10. -/
theorem getItems_clamps_pagination_witness :
    getItemsArgs ctxA (some "t") 0 20 [] none = getItemsArgs ctxA (some "t") 1 20 [] none ∧
    getItemsArgs ctxA (some "t") 2 0 [] none = getItemsArgs ctxA (some "t") 2 10 [] none ∧
    getItems ctxA (some "t") 0 (-5) [] none exSt
      = getItems ctxA (some "t") 1 10 [] none exSt := by
  have h := getItems_clamps_pagination ctxA (some "t") [] none exSt
  exact ⟨(h.1 0 20 (by decide)).1, (h.2.1 2 0 (by decide)).1,
    (h.2.2.1 0 (-5) (by decide) (by decide)).2⟩

/-- Claim C1 (code bug): on a state where type a has a live record and type b
has none, indexItem over both types fails with the TypeError raised by
reading ipfs_pin_hash of the undefined getItemData result, instead of
silently omitting the absent type. -/
theorem indexItem_crashes_on_missing_type :
    countLive ctxA (hashOf 0) "a" exSt = 1 ∧
    countLive ctxA (hashOf 0) "b" exSt = 0 ∧
    (indexItem ctxA (hashOf 0) ["a", "b"] none 7 exSt).1 = .error .typeErrorUndefined :=
  ⟨rfl, rfl, rfl⟩

/-- Claim C2 (code bug): removeItem with dataTypes omitted removes only the
root record — the data record of type a survives — while removeItem with the
type listed does remove it. -/
theorem removeItem_no_cascade_cex :
    (removeItem ctxA (hashOf 0) none exSt).1 = .ok () ∧
    rootRecords ctxA (hashOf 0) (removeItem ctxA (hashOf 0) none exSt).2.records = [] ∧
    countLive ctxA (hashOf 0) "a" (removeItem ctxA (hashOf 0) none exSt).2 = 1 ∧
    countLive ctxA (hashOf 0) "a" (removeItem ctxA (hashOf 0) (some ["a"]) exSt).2 = 0 :=
  ⟨rfl, rfl, rfl, rfl⟩

/-- Claim C5 (code bug): indexItem writes the index record (it is live for
the key (itemHash, index) afterwards) but then reads it back with the wrong
item hash and returns undefined instead of the stored index record. -/
theorem indexItem_returns_undefined_cex :
    (indexItem ctxA (hashOf 0) ["a"] none 7 exSt).1 = .ok none ∧
    countLive ctxA (hashOf 0) "index" (indexItem ctxA (hashOf 0) ["a"] none 7 exSt).2 = 1 :=
  ⟨rfl, rfl⟩

/-- Claim C8 counterexample: createItem accepts a type containing characters
outside the allowed alphabet without any validation error and stores it
verbatim, capital letters preserved, in the persisted sub_item metadata. -/
theorem createItem_type_unvalidated_cex :
    (createItem ctxA "Bad!" none "u9" 5 (PinataState.mk [] 0 [])).1 = .ok (hashOf 0) ∧
    ((createItem ctxA "Bad!" none "u9" 5 (PinataState.mk [] 0 [])).2.records.map
      (fun r => getKey r.metadata.keyvalues "sub_item")) = [some (.str "Bad!:u9")] :=
  ⟨rfl, rfl⟩

/-- Claim C8 (amended): Substrate.parseType does restrict type strings to
nonempty strings over the allowed alphabet and lowercases them, but
createItem never invokes it: the caller-supplied type is embedded verbatim,
unvalidated and with case preserved, in the persisted itemId and metadata. -/
theorem parseType_restricts_but_createItem_bypasses :
    (parseType "" = .error .typeRequired) ∧
    (∀ t : String, t ≠ "" → t.data.all (fun c => c.isAlphanum || c == '_') = true →
        parseType t = .ok (strToLower t)) ∧
    (∀ t : String, t ≠ "" → t.data.all (fun c => c.isAlphanum || c == '_') = false →
        parseType t = .error .typeInvalid) ∧
    (∀ (ctx : Ctx) (type : String) (owner : Option String) (uid : String) (time : Int)
        (st : PinataState),
        (createItem ctx type owner uid time st).1 = .ok (hashOf st.nextHash) ∧
        (createItem ctx type owner uid time st).2.records = st.records ++
          [PinRecord.mk (hashOf st.nextHash)
            (PinMetadata.mk (type ++ ":" ++ uid)
              [("sub_owner", ownerVal owner),
               ("sub_item", .str (type ++ ":" ++ uid)), ("sub_date", .num time),
               ("sub_client", .str ctx.client)])
            (.obj [("sub_item", .str (type ++ ":" ++ uid)), ("sub_date", .num time),
               ("sub_client", .str ctx.client)])]) := by
  refine ⟨rfl, ?_, ?_, ?_⟩
  · intro t hne hall
    unfold parseType
    rw [if_neg (by simpa using hne), if_pos hall]
  · intro t hne hall
    unfold parseType
    rw [if_neg (by simpa using hne), if_neg (by simp [hall])]
  · intro ctx type owner uid time st
    exact ⟨rfl, rfl⟩

/-- Witness: parseType lowercases a valid type and rejects an invalid one,
while createItem accepts the invalid one. -/
theorem parseType_restricts_but_createItem_bypasses_witness :
    parseType "Ab_9" = .ok (strToLower "Ab_9") ∧
    parseType "Bad!" = .error .typeInvalid ∧
    (createItem ctxA "Bad!" none "u9" 5 (PinataState.mk [] 0 [])).1 = .ok (hashOf 0) := by
  have h := parseType_restricts_but_createItem_bypasses
  exact ⟨h.2.1 "Ab_9" (by decide) (by decide), h.2.2.1 "Bad!" (by decide) (by decide),
    (h.2.2.2 ctxA "Bad!" none "u9" 5 (PinataState.mk [] 0 [])).1⟩
